import Mathlib

/-
Verification of the postgrest-go client core (src/client.go) against its
natural-language specification.

The development shallowly embeds the Go code:
  * `http.Header` (a Go map from canonical MIME header keys to value lists)
    is modelled as an association list `HeaderSet`; `Set`/`Add` follow
    net/http (canonicalising the key, replace resp. append semantics).
  * Go stdlib path handling (`path.Join`, `path.Clean`, and the
    `net/url` relative-reference resolution used by `URL.ResolveReference`)
    is modelled over `List Char`, lexically, ignoring percent-escaping,
    query, fragment and user-info components, which the repository never sets.
  * the two HTTP engines (net/http and fasthttp) are external collaborators:
    the response a server gives is passed in as an `HTTPEnv` environment.
  * a Go nil-pointer dereference (the `Client` returned on a URL parse
    failure has a nil `Transport`) is modelled by an `Option` result:
    `none` means the operation panics.
  * Go `error` values are modelled as their message strings (`GoError`);
    a nil error is `Option.none`.
-/

namespace Postgrest

abbrev GoError := String

/-! ## Canonical MIME header keys (net/textproto) -/

/-- Valid header-field byte per net/textproto `validHeaderFieldByte`
(token characters from RFC 7230). -/
def validHeaderFieldChar (c : Char) : Bool :=
  let n := c.toNat
  (48 ≤ n && n ≤ 57) || (65 ≤ n && n ≤ 90) || (97 ≤ n && n ≤ 122) ||
  (n == 33 || n == 35 || n == 36 || n == 37 || n == 38 || n == 39 ||
   n == 42 || n == 43 || n == 45 || n == 46 || n == 94 || n == 95 ||
   n == 96 || n == 124 || n == 126)

/-- Case transformation loop of `textproto.CanonicalMIMEHeaderKey`: the first
letter and every letter following a hyphen is uppercased, the rest lowercased. -/
def canonChars : Bool → List Char → List Char
  | _, [] => []
  | upper, c :: cs =>
    let c' := if upper then c.toUpper else c.toLower
    c' :: canonChars (c == '-') cs

/-- Model of `textproto.CanonicalMIMEHeaderKey`: a key containing a byte that
is not a valid header-field byte is returned unchanged. -/
def canonicalKey (s : String) : String :=
  if s.data.all validHeaderFieldChar then ⟨canonChars true s.data⟩ else s

/-! ## HeaderSet: model of `http.Header` -/

/-- Append `v` to the value list of the first entry with key `k`, or append a
new `(k, [v])` entry: the effect of `textproto.MIMEHeader.Add` on a Go map. -/
def addEntry : List (String × List String) → String → String → List (String × List String)
  | [], k, v => [(k, [v])]
  | e :: rest, k, v =>
    if e.1 = k then (e.1, e.2 ++ [v]) :: rest else e :: addEntry rest k v

/-- Replace the value list of the first entry with key `k` by `[v]`, or append
a new entry: the effect of `textproto.MIMEHeader.Set` on a Go map. -/
def setEntry : List (String × List String) → String → String → List (String × List String)
  | [], k, v => [(k, [v])]
  | e :: rest, k, v =>
    if e.1 = k then (k, [v]) :: rest else e :: setEntry rest k v

/-- First value list stored under key `k` (empty when absent): the lookup
underlying `http.Header.Values`. -/
def findEntry : List (String × List String) → String → List String
  | [], _ => []
  | e :: rest, k => if e.1 = k then e.2 else findEntry rest k

/-- Model of Go's `http.Header`. Entry order models one iteration order of the
Go map; the claims never depend on it. -/
structure HeaderSet where
  entries : List (String × List String)
deriving DecidableEq, Repr

def HeaderSet.add (h : HeaderSet) (key value : String) : HeaderSet :=
  ⟨addEntry h.entries (canonicalKey key) value⟩

def HeaderSet.set (h : HeaderSet) (key value : String) : HeaderSet :=
  ⟨setEntry h.entries (canonicalKey key) value⟩

def HeaderSet.values (h : HeaderSet) (key : String) : List String :=
  findEntry h.entries (canonicalKey key)

/-- Add every stored value of every entry of `es`, one `Add` per value: the
loop `for headerName, values := range header { for _, val := range values {
req.Header.Add(headerName, val) } }` used both by the fasthttp branches and by
`transport.RoundTrip`. -/
def HeaderSet.addEntries (h : HeaderSet) (es : List (String × List String)) : HeaderSet :=
  es.foldl (fun acc e => e.2.foldl (fun a v => a.add e.1 v) acc) h

/-- Concatenation of the value lists of all entries of `es` whose stored key
canonicalises to `ck` (in entry order). -/
def collectValues (ck : String) : List (String × List String) → List String
  | [] => []
  | e :: es => (if ck = canonicalKey e.1 then e.2 else []) ++ collectValues ck es

/-! ## Go path handling (`path.Clean`, `path.Join`, `net/url` resolution) -/

/-- Split a character list on `/` (like `strings.Split`); never returns `[]`. -/
def splitSlash : List Char → List (List Char)
  | [] => [[]]
  | c :: cs =>
    if c = '/' then [] :: splitSlash cs
    else
      match splitSlash cs with
      | [] => [[c]]
      | s :: rest => (c :: s) :: rest

/-- Join segments with `/` (like `strings.Join (· , "/")`). -/
def joinSlash : List (List Char) → List Char
  | [] => []
  | [s] => s
  | s :: rest => s ++ '/' :: joinSlash rest

/-- Prefix of `s` up to and including its last `/` (empty when `s` has no
slash): `base[:strings.LastIndex(base, "/")+1]`. -/
def upToLastSlash (s : List Char) : List Char :=
  (s.reverse.dropWhile (fun c => !(c = '/'))).reverse

/-- Segment processing of `path.Clean`: drop empty and `.` segments, let `..`
pop the previous segment (at the root `..` is dropped; on a relative path an
unmatched `..` is kept). -/
def cleanSegs (rooted : Bool) : List (List Char) → List (List Char) → List (List Char)
  | acc, [] => acc.reverse
  | acc, seg :: rest =>
    if seg = [] ∨ seg = ['.'] then cleanSegs rooted acc rest
    else if seg = ['.', '.'] then
      match acc with
      | [] => if rooted then cleanSegs rooted [] rest else cleanSegs rooted [['.', '.']] rest
      | a :: acc' =>
        if a = ['.', '.'] then cleanSegs rooted (['.', '.'] :: a :: acc') rest
        else cleanSegs rooted acc' rest
    else cleanSegs rooted (seg :: acc) rest

/-- Model of Go `path.Clean`. -/
def cleanPath (p : List Char) : List Char :=
  if p = [] then ['.']
  else
    let rooted := p.head? = some '/'
    let out := cleanSegs rooted [] (splitSlash p)
    if rooted then '/' :: joinSlash out
    else if out = [] then ['.'] else joinSlash out

/-- Model of Go `path.Join`: all-empty input gives `""`, otherwise the
non-empty elements joined with `/` and cleaned. -/
def pathJoin (elems : List (List Char)) : List Char :=
  if elems.all (fun e => e.isEmpty) then []
  else cleanPath (joinSlash (elems.filter (fun e => !e.isEmpty)))

/-- Dot-segment removal of `net/url.resolvePath`: `.` segments are dropped and
`..` pops the previously kept segment; empty segments are kept. -/
def resolveSegs : List (List Char) → List (List Char) → List (List Char)
  | acc, [] => acc
  | acc, seg :: rest =>
    if seg = ['.'] then resolveSegs acc rest
    else if seg = ['.', '.'] then resolveSegs acc.dropLast rest
    else resolveSegs (acc ++ [seg]) rest

/-- Segments of the merged path, the leading empty segment of a rooted path
dropped. -/
def pathSegsOf (full : List Char) : List (List Char) :=
  if full.head? = some '/' then (splitSlash full).tail else splitSlash full

/-- The merged path ends in a `.` or `..` segment (which leaves the result of
dot-segment removal with a trailing slash). -/
def trailingDotSeg (segs : List (List Char)) : Prop :=
  segs.getLast? = some ['.'] ∨ segs.getLast? = some ['.', '.']

instance : DecidablePred trailingDotSeg := fun segs => by
  unfold trailingDotSeg; infer_instance

/-- Core of `net/url.resolvePath` on the merged path `full ≠ ""`: the result
is always rooted, and a trailing `.` or `..` segment leaves a trailing slash. -/
def resolvePathAux (full : List Char) : List Char :=
  if trailingDotSeg (pathSegsOf full) ∧ resolveSegs [] (pathSegsOf full) ≠ [] then
    '/' :: joinSlash (resolveSegs [] (pathSegsOf full)) ++ ['/']
  else
    '/' :: joinSlash (resolveSegs [] (pathSegsOf full))

/-- RFC 3986 path merge of `net/url.resolvePath`: an empty reference keeps the
base, a rooted reference wins, otherwise the reference is appended to the base
up to its last slash. -/
def mergePaths (base ref : List Char) : List Char :=
  if ref = [] then base
  else if ref.head? = some '/' then ref
  else upToLastSlash base ++ ref

/-- Model of `net/url.resolvePath base ref` (RFC 3986 merge followed by
dot-segment removal). -/
def resolvePath (base ref : List Char) : List Char :=
  if mergePaths base ref = [] then [] else resolvePathAux (mergePaths base ref)

/-- URL fragment used by the repository: scheme, host and path. Query,
fragment, user-info and opaque components are never set by the code under
verification and are omitted. -/
structure URL where
  scheme : String
  host : String
  path : List Char
deriving DecidableEq, Repr

/-- Model of `net/url.URL.ResolveReference` restricted to the components
above: an absolute (schemed or hosted) reference wins outright, a relative
reference takes scheme and host from the base and merges the paths. -/
def resolveReference (base ref : URL) : URL :=
  if ref.scheme ≠ "" ∨ ref.host ≠ "" then
    { scheme := if ref.scheme = "" then base.scheme else ref.scheme,
      host := ref.host,
      path := resolvePath ref.path [] }
  else
    { scheme := base.scheme, host := base.host,
      path := resolvePath base.path ref.path }

/-! ## The Client (src/client.go) -/

def version : String := "v0.1.1"

/-- Model of the `fasthttp.Client` configuration the code touches. -/
structure FastHTTPClient where
  maxConnsPerHost : Int
deriving DecidableEq, Repr

/-- The repository's `transport` struct (the `Parent http.RoundTripper` test
hook is always nil in the constructors and is omitted). -/
structure Transport where
  header : HeaderSet
  baseURL : URL
deriving DecidableEq, Repr

/-- The repository's `Client`. `transport = none` models the nil `*transport`
pointer of a construction-failure client; `clientError = none` models a nil
error. -/
structure Client where
  clientError : Option GoError
  transport : Option Transport
  useFastHTTP : Bool
  fastHTTPClient : Option FastHTTPClient
deriving DecidableEq, Repr

/-- Model of `NewClient`. `parsed` is the outcome of the external
`url.Parse(rawURL)` call; `headers` is the optional extra-header map, given in
one iteration order. -/
def NewClient (parsed : Except GoError URL) (schema : String)
    (headers : List (String × String)) : Client :=
  match parsed with
  | .error err =>
    { clientError := some err, transport := none,
      useFastHTTP := false, fastHTTPClient := none }
  | .ok baseURL =>
    let schema2 := if schema = "" then "public" else schema
    let h := (((((HeaderSet.mk []).set "Accept" "application/json").set
        "Content-Type" "application/json").set
        "Accept-Profile" schema2).set
        "Content-Profile" schema2).set
        "X-Client-Info" ("postgrest-go/" ++ version)
    let h := headers.foldl (fun acc kv => acc.set kv.1 kv.2) h
    { clientError := none,
      transport := some { header := h, baseURL := baseURL },
      useFastHTTP := false, fastHTTPClient := none }

/-- Model of `NewClientFast`: identical construction except for the engine
selector and the pooled client with its default connection cap of 30. -/
def NewClientFast (parsed : Except GoError URL) (schema : String)
    (headers : List (String × String)) : Client :=
  match parsed with
  | .error err =>
    { clientError := some err, transport := none,
      useFastHTTP := false, fastHTTPClient := none }
  | .ok baseURL =>
    let schema2 := if schema = "" then "public" else schema
    let h := (((((HeaderSet.mk []).set "Accept" "application/json").set
        "Content-Type" "application/json").set
        "Accept-Profile" schema2).set
        "Content-Profile" schema2).set
        "X-Client-Info" ("postgrest-go/" ++ version)
    let h := headers.foldl (fun acc kv => acc.set kv.1 kv.2) h
    { clientError := none,
      transport := some { header := h, baseURL := baseURL },
      useFastHTTP := true,
      fastHTTPClient := some { maxConnsPerHost := 30 } }

/-- Model of `SetFastHTTPMaxConns`: non-positive input falls back to 30; a nil
pooled client is replaced by a fresh zero-value one first. -/
def Client.setFastHTTPMaxConns (c : Client) (n : Int) : Client :=
  let n' := if n ≤ 0 then (30 : Int) else n
  let f := match c.fastHTTPClient with
    | none => ({ maxConnsPerHost := 0 } : FastHTTPClient)
    | some f => f
  { c with fastHTTPClient := some { f with maxConnsPerHost := n' } }

/-- Model of `SetApiKey`; dereferences the transport pointer, so a broken
client gives `none` (panic). -/
def Client.setApiKey (c : Client) (apiKey : String) : Option Client :=
  match c.transport with
  | none => none
  | some t =>
    some { c with transport := some { t with header := t.header.set "apikey" apiKey } }

/-- Model of `SetAuthToken`. -/
def Client.setAuthToken (c : Client) (authToken : String) : Option Client :=
  match c.transport with
  | none => none
  | some t =>
    let t' : Transport := { t with header := t.header.set "Authorization" ("Bearer " ++ authToken) }
    some { c with transport := some t' }

/-- Model of `ChangeSchema`. -/
def Client.changeSchema (c : Client) (schema : String) : Option Client :=
  match c.transport with
  | none => none
  | some t =>
    let t' : Transport :=
      { t with header := (t.header.set "Accept-Profile" schema).set "Content-Profile" schema }
    some { c with transport := some t' }

/-! ## Requests and the engine environment -/

/-- A fully built outbound HTTP request. -/
structure Request where
  method : String
  url : URL
  headers : HeaderSet
  body : String
deriving DecidableEq, Repr

/-- A request as handed to the active engine, together with which engine
carries it and the explicit deadline applied, if any. -/
structure SentRequest where
  viaFastEngine : Bool
  req : Request
  deadlineSeconds : Option Nat
deriving DecidableEq, Repr

/-- Response of the fasthttp engine (`fasthttp.Response`): status code and
body bytes. -/
structure FastResp where
  statusCode : Int
  body : String
deriving DecidableEq, Repr

/-- Response of the net/http engine (`http.Response`): the raw status line
text (`Status`), the parsed status code, the outcome of reading the body, and
the outcome of closing it. -/
structure StdResp where
  status : String
  statusCode : Int
  bodyRead : Except GoError String
  closeErr : Option GoError
deriving Repr

/-- External behaviour of the two engines for one call: what
`fasthttp.Client.Do`/`DoDeadline` returns, whether `http.NewRequest` fails,
and what `http.Client.Do` returns. -/
structure HTTPEnv where
  fastResult : Except GoError FastResp
  stdNewRequestErr : Option GoError
  stdResult : Except GoError StdResp
deriving Repr

/-- URL built by `Ping` before branching:
`base.ResolveReference(&url.URL{Path: path.Join(base.Path, "")})`. -/
def pingFullURL (base : URL) : URL :=
  resolveReference base { scheme := "", host := "", path := pathJoin [base.path, []] }

/-- URL built by `Rpc` before branching:
`base.ResolveReference(&url.URL{Path: path.Join(base.Path, "rpc", name)})`. -/
def rpcFullURL (base : URL) (name : String) : URL :=
  resolveReference base
    { scheme := "", host := "", path := pathJoin [base.path, "rpc".data, name.data] }

def pingFailedError : GoError := "ping failed"

/-- Model of `Ping`'s observable behaviour. `none` models the nil-pointer
panic of `c.Transport.baseURL` on a broken client. On `true` the client is
returned unchanged; on `false` `ClientError` is set. The fast branch checks
`resp.StatusCode() != 200`; the standard branch checks the status string
`resp.Status != "200 OK"`. -/
def ping (c : Client) (env : HTTPEnv) : Option (Bool × Client) :=
  match c.transport with
  | none => none
  | some _ =>
    if c.useFastHTTP then
      match env.fastResult with
      | .error e => some (false, { c with clientError := some e })
      | .ok resp =>
        if resp.statusCode ≠ 200 then
          some (false, { c with clientError := some pingFailedError })
        else some (true, c)
    else
      match env.stdNewRequestErr with
      | some e => some (false, { c with clientError := some e })
      | none =>
        match env.stdResult with
        | .error e => some (false, { c with clientError := some e })
        | .ok resp =>
          if resp.status ≠ "200 OK" then
            some (false, { c with clientError := some pingFailedError })
          else some (true, c)

/-- The request `Ping` hands to its active engine: GET at the resolved base
URL; the fast branch copies the default headers itself and calls `DoDeadline`
with a 5-second deadline; the standard branch sends a bare request through
`session.Do`, whose transport (`RoundTrip`) stamps the default headers and
re-resolves the URL — with no deadline anywhere. -/
def pingSentRequest (c : Client) : Option SentRequest :=
  match c.transport with
  | none => none
  | some t =>
    let full := pingFullURL t.baseURL
    if c.useFastHTTP then
      some { viaFastEngine := true,
             req := { method := "GET", url := full,
                      headers := (HeaderSet.mk []).addEntries t.header.entries,
                      body := "" },
             deadlineSeconds := some 5 }
    else
      some { viaFastEngine := false,
             req := { method := "GET",
                      url := resolveReference t.baseURL full,
                      headers := (HeaderSet.mk []).addEntries t.header.entries,
                      body := "" },
             deadlineSeconds := none }

/-- The request built by the fasthttp branch of `Rpc` (lines 217-244): POST at
the resolved RPC URL, default headers copied additively, then the optional
`Prefer: count=...` header; a nil byte body leaves the payload empty. -/
def buildRpcRequestFast (t : Transport) (name count : String)
    (byteBody : Option String) : Request :=
  let full := rpcFullURL t.baseURL name
  let h := (HeaderSet.mk []).addEntries t.header.entries
  let h := if count ≠ "" ∧ (count = "exact" ∨ count = "planned" ∨ count = "estimated")
    then h.add "Prefer" ("count=" ++ count) else h
  { method := "POST", url := full, headers := h, body := byteBody.getD "" }

/-- The request built by the net/http branch of `Rpc` (lines 246-255), before
the transport runs: only the optional `Prefer` header is set here. -/
def buildRpcRequestStd (t : Transport) (name count : String)
    (byteBody : Option String) : Request :=
  let full := rpcFullURL t.baseURL name
  let h := if count ≠ "" ∧ (count = "exact" ∨ count = "planned" ∨ count = "estimated")
    then (HeaderSet.mk []).add "Prefer" ("count=" ++ count) else HeaderSet.mk []
  { method := "POST", url := full, headers := h, body := byteBody.getD "" }

/-- Model of `transport.RoundTrip` (lines 286-293): adds every default header
value additively onto the request and resolves the request URL against the
base URL, then delegates to the underlying engine. -/
def roundTripApply (t : Transport) (req : Request) : Request :=
  { req with headers := req.headers.addEntries t.header.entries,
             url := resolveReference t.baseURL req.url }

/-- The request `Rpc` hands to its active engine (fast branch directly; the
standard branch after `RoundTrip` has stamped it). Neither branch sets a
deadline. -/
def rpcSentRequest (c : Client) (name count : String)
    (byteBody : Option String) : Option SentRequest :=
  match c.transport with
  | none => none
  | some t =>
    if c.useFastHTTP then
      some { viaFastEngine := true,
             req := buildRpcRequestFast t name count byteBody,
             deadlineSeconds := none }
    else
      some { viaFastEngine := false,
             req := roundTripApply t (buildRpcRequestStd t name count byteBody),
             deadlineSeconds := none }

/-- Lift the result of a successful (or absent) body marshal into the
`rpcBody` argument of `rpc`: `none` is a nil body, `some s` a body whose JSON
encoding is `s`. -/
def okBody : Option String → Option (Except GoError String)
  | none => none
  | some s => some (.ok s)

/-- Model of `Rpc`'s observable behaviour. `rpcBody` is the body argument
together with the outcome of the external `json.Marshal` call (`none` = nil
body, skipping the marshal). A marshal failure returns before the transport
pointer is touched; afterwards a nil transport panics (`none`). Every failure
path stores the error and returns `""`; the success paths return the raw
response body and leave the client untouched. -/
def rpc (c : Client) (name count : String)
    (rpcBody : Option (Except GoError String)) (env : HTTPEnv) :
    Option (String × Client) :=
  match rpcBody with
  | some (.error e) => some ("", { c with clientError := some e })
  | _ =>
    match c.transport with
    | none => none
    | some _ =>
      if c.useFastHTTP then
        match env.fastResult with
        | .error e => some ("", { c with clientError := some e })
        | .ok resp => some (resp.body, c)
      else
        match env.stdNewRequestErr with
        | some e => some ("", { c with clientError := some e })
        | none =>
          match env.stdResult with
          | .error e => some ("", { c with clientError := some e })
          | .ok resp =>
            match resp.bodyRead with
            | .error e => some ("", { c with clientError := some e })
            | .ok body =>
              match resp.closeErr with
              | some e => some ("", { c with clientError := some e })
              | none => some (body, c)

/-- Default header values of a client, looked up through the transport
pointer; a broken client has none. -/
def headerValuesOf (c : Client) (key : String) : List String :=
  match c.transport with
  | none => []
  | some t => t.header.values key

/-! ## Header-set algebra -/

theorem findEntry_addEntry : ∀ (l : List (String × List String)) (k v k' : String),
    findEntry (addEntry l k v) k' =
      if k' = k then findEntry l k' ++ [v] else findEntry l k'
  | [], k, v, k' => by
    by_cases h : k' = k
    · subst h; simp [addEntry, findEntry]
    · have h2 : ¬(k = k') := fun h' => h h'.symm
      simp [addEntry, findEntry, h, h2]
  | e :: rest, k, v, k' => by
    by_cases he : e.1 = k
    · simp only [addEntry, if_pos he, findEntry]
      by_cases he' : e.1 = k'
      · have : k' = k := he'.symm.trans he
        simp [he', this]
      · have : ¬(k' = k) := fun h => he' (he.trans h.symm)
        simp [he', this]
    · simp only [addEntry, if_neg he, findEntry]
      by_cases he' : e.1 = k'
      · have : ¬(k' = k) := fun h => he ((he'.trans h).symm ▸ rfl)
        simp [he', this]
      · simp [he', findEntry_addEntry rest k v k']

theorem findEntry_setEntry : ∀ (l : List (String × List String)) (k v k' : String),
    findEntry (setEntry l k v) k' = if k' = k then [v] else findEntry l k'
  | [], k, v, k' => by
    by_cases h : k' = k
    · subst h; simp [setEntry, findEntry]
    · have h2 : ¬(k = k') := fun h' => h h'.symm
      simp [setEntry, findEntry, h, h2]
  | e :: rest, k, v, k' => by
    by_cases he : e.1 = k
    · simp only [setEntry, if_pos he, findEntry]
      by_cases hk : k' = k
      · simp [hk]
      · have : ¬(k = k') := fun h => hk h.symm
        have he' : ¬(e.1 = k') := fun h => hk ((he.symm.trans h).symm)
        simp [this, he', hk]
    · simp only [setEntry, if_neg he, findEntry]
      by_cases he' : e.1 = k'
      · have : ¬(k' = k) := fun h => he (he'.trans h)
        simp [he', this]
      · simp [he', findEntry_setEntry rest k v k']

theorem HeaderSet.values_add (h : HeaderSet) (k v k' : String) :
    (h.add k v).values k' =
      h.values k' ++ (if canonicalKey k' = canonicalKey k then [v] else []) := by
  unfold HeaderSet.add HeaderSet.values
  rw [findEntry_addEntry]
  split_ifs <;> simp

theorem HeaderSet.values_set (h : HeaderSet) (k v k' : String) :
    (h.set k v).values k' =
      if canonicalKey k' = canonicalKey k then [v] else h.values k' := by
  unfold HeaderSet.set HeaderSet.values
  rw [findEntry_setEntry]

theorem values_addList (vs : List String) (h : HeaderSet) (k k' : String) :
    (vs.foldl (fun a v => a.add k v) h).values k' =
      h.values k' ++ (if canonicalKey k' = canonicalKey k then vs else []) := by
  induction vs generalizing h with
  | nil => simp
  | cons v vs ih =>
    simp only [List.foldl_cons, ih, HeaderSet.values_add]
    split_ifs <;> simp

theorem values_addEntries (h : HeaderSet) (es : List (String × List String)) (k : String) :
    (h.addEntries es).values k = h.values k ++ collectValues (canonicalKey k) es := by
  induction es generalizing h with
  | nil => simp [HeaderSet.addEntries, collectValues]
  | cons e es ih =>
    simp only [HeaderSet.addEntries, List.foldl_cons] at ih ⊢
    rw [ih, values_addList, collectValues, List.append_assoc]

theorem collectValues_eq_nil (ck : String) (es : List (String × List String))
    (hx : ∀ e ∈ es, ¬(ck = canonicalKey e.1)) : collectValues ck es = [] := by
  induction es with
  | nil => rfl
  | cons e es ih =>
    simp only [collectValues, if_neg (hx e (by simp)), List.nil_append]
    exact ih (fun e' he' => hx e' (List.mem_cons_of_mem e he'))

theorem values_foldSet (extras : List (String × String)) (h : HeaderSet) (k : String)
    (hx : ∀ kv ∈ extras, ¬(canonicalKey k = canonicalKey kv.1)) :
    (extras.foldl (fun acc kv => acc.set kv.1 kv.2) h).values k = h.values k := by
  induction extras generalizing h with
  | nil => rfl
  | cons e es ih =>
    simp only [List.foldl_cons]
    rw [ih _ (fun kv hm => hx kv (List.mem_cons_of_mem e hm)),
        HeaderSet.values_set, if_neg (hx e (by simp))]

/-! ## Path lemmas: splitting, joining and dot-segment removal -/

theorem splitSlash_ne_nil (cs : List Char) : splitSlash cs ≠ [] := by
  cases cs with
  | nil => simp [splitSlash]
  | cons c cs =>
    simp only [splitSlash]
    split
    · simp
    · cases hs : splitSlash cs <;> simp

theorem not_slash_of_mem_splitSlash : ∀ (cs : List Char) (s : List Char),
    s ∈ splitSlash cs → '/' ∉ s
  | [], s, hs => by
    simp [splitSlash] at hs; subst hs; simp
  | c :: cs, s, hs => by
    simp only [splitSlash] at hs
    by_cases hc : c = '/'
    · rw [if_pos hc] at hs
      rcases List.mem_cons.mp hs with rfl | hs
      · simp
      · exact not_slash_of_mem_splitSlash cs s hs
    · rw [if_neg hc] at hs
      cases h2 : splitSlash cs with
      | nil => exact absurd h2 (splitSlash_ne_nil cs)
      | cons t rest =>
        rw [h2] at hs
        rcases List.mem_cons.mp hs with rfl | hs
        · intro hmem
          rcases List.mem_cons.mp hmem with h3 | h3
          · exact hc h3.symm
          · exact not_slash_of_mem_splitSlash cs t
              (by rw [h2]; exact List.mem_cons_self t rest) h3
        · exact not_slash_of_mem_splitSlash cs s
            (by rw [h2]; exact List.mem_cons_of_mem t hs)

theorem splitSlash_no_slash : ∀ (s : List Char), '/' ∉ s → splitSlash s = [s]
  | [], _ => rfl
  | c :: s, h => by
    have hc : ¬(c = '/') := fun hc => h (by rw [hc]; exact List.mem_cons_self _ _)
    rw [splitSlash, if_neg hc,
        splitSlash_no_slash s (fun hm => h (List.mem_cons_of_mem c hm))]

theorem splitSlash_append_slash : ∀ (s ys : List Char), '/' ∉ s →
    splitSlash (s ++ '/' :: ys) = s :: splitSlash ys
  | [], ys, _ => by simp [splitSlash]
  | c :: s, ys, h => by
    have hc : ¬(c = '/') := fun hc => h (by rw [hc]; exact List.mem_cons_self _ _)
    rw [List.cons_append, splitSlash, if_neg hc,
        splitSlash_append_slash s ys (fun hm => h (List.mem_cons_of_mem c hm))]

theorem splitSlash_joinSlash : ∀ (ss : List (List Char)), ss ≠ [] →
    (∀ s ∈ ss, '/' ∉ s) → splitSlash (joinSlash ss) = ss
  | [], h, _ => absurd rfl h
  | [s], _, hs => by
    show splitSlash s = [s]
    exact splitSlash_no_slash s (hs s (by simp))
  | s :: t :: rest, _, hs => by
    show splitSlash (s ++ '/' :: joinSlash (t :: rest)) = s :: t :: rest
    rw [splitSlash_append_slash s _ (hs s (by simp)),
        splitSlash_joinSlash (t :: rest) (by simp)
          (fun u hu => hs u (List.mem_cons_of_mem s hu))]

theorem joinSlash_append_single : ∀ (xs : List (List Char)) (s : List Char), xs ≠ [] →
    joinSlash (xs ++ [s]) = joinSlash xs ++ '/' :: s
  | [], _, h => absurd rfl h
  | [t], s, _ => by simp [joinSlash]
  | t :: u :: rest, s, _ => by
    show t ++ '/' :: joinSlash (u :: rest ++ [s]) =
      (t ++ '/' :: joinSlash (u :: rest)) ++ '/' :: s
    rw [joinSlash_append_single (u :: rest) s (by simp)]
    simp

theorem resolveSegs_no_dot : ∀ (acc segs : List (List Char)),
    (∀ s ∈ segs, ¬(s = ['.']) ∧ ¬(s = ['.', '.'])) → resolveSegs acc segs = acc ++ segs
  | acc, [], _ => by simp [resolveSegs]
  | acc, seg :: rest, h => by
    have h1 := h seg (by simp)
    rw [resolveSegs, if_neg h1.1, if_neg h1.2,
        resolveSegs_no_dot (acc ++ [seg]) rest (fun s hs => h s (List.mem_cons_of_mem _ hs))]
    simp

theorem mem_resolveSegs : ∀ (acc segs : List (List Char)) (s : List Char),
    s ∈ resolveSegs acc segs → s ∈ acc ∨ s ∈ segs
  | _, [], _, h => Or.inl h
  | acc, seg :: rest, s, h => by
    simp only [resolveSegs] at h
    split_ifs at h with h1 h2
    · rcases mem_resolveSegs acc rest s h with ha | hr
      · exact Or.inl ha
      · exact Or.inr (List.mem_cons_of_mem _ hr)
    · rcases mem_resolveSegs acc.dropLast rest s h with ha | hr
      · exact Or.inl (List.dropLast_subset acc ha)
      · exact Or.inr (List.mem_cons_of_mem _ hr)
    · rcases mem_resolveSegs (acc ++ [seg]) rest s h with ha | hr
      · rcases List.mem_append.mp ha with h3 | h3
        · exact Or.inl h3
        · simp at h3; subst h3; exact Or.inr (List.mem_cons_self _ _)
      · exact Or.inr (List.mem_cons_of_mem _ hr)

theorem resolveSegs_out_nodot : ∀ (acc segs : List (List Char)),
    (∀ s ∈ acc, ¬(s = ['.']) ∧ ¬(s = ['.', '.'])) →
    ∀ s ∈ resolveSegs acc segs, ¬(s = ['.']) ∧ ¬(s = ['.', '.'])
  | _, [], hacc => hacc
  | acc, seg :: rest, hacc => by
    simp only [resolveSegs]
    split_ifs with h1 h2
    · exact resolveSegs_out_nodot acc rest hacc
    · exact resolveSegs_out_nodot acc.dropLast rest
        (fun s hs => hacc s (List.dropLast_subset acc hs))
    · exact resolveSegs_out_nodot (acc ++ [seg]) rest
        (fun s hs => by
          rcases List.mem_append.mp hs with h3 | h3
          · exact hacc s h3
          · simp at h3; subst h3; exact ⟨h1, h2⟩)

/-! ## Idempotence of URL resolution (re-resolving a resolved URL is a no-op) -/

theorem pathSegsOf_sub (full : List Char) : ∀ s ∈ pathSegsOf full, s ∈ splitSlash full := by
  intro s hs
  unfold pathSegsOf at hs
  split at hs
  · exact List.tail_subset _ hs
  · exact hs

theorem resolvePathAux_out_no_slash (full : List Char) :
    ∀ s ∈ resolveSegs [] (pathSegsOf full), '/' ∉ s := by
  intro s hs
  rcases mem_resolveSegs _ _ s hs with h | h
  · cases h
  · exact not_slash_of_mem_splitSlash full s (pathSegsOf_sub full s h)

theorem resolvePathAux_out_nodot (full : List Char) :
    ∀ s ∈ resolveSegs [] (pathSegsOf full), ¬(s = ['.']) ∧ ¬(s = ['.', '.']) :=
  resolveSegs_out_nodot [] _ (fun s hs => by cases hs)

theorem pathSegsOf_slash (cs : List Char) : pathSegsOf ('/' :: cs) = splitSlash cs := by
  unfold pathSegsOf
  rw [if_pos (by simp)]
  show (splitSlash ('/' :: cs)).tail = splitSlash cs
  rw [splitSlash, if_pos rfl]
  rfl

theorem resolvePathAux_head (full : List Char) :
    ∃ cs, resolvePathAux full = '/' :: cs := by
  unfold resolvePathAux
  split_ifs <;> exact ⟨_, rfl⟩

theorem resolvePathAux_ne_nil (full : List Char) : resolvePathAux full ≠ [] := by
  obtain ⟨cs, hcs⟩ := resolvePathAux_head full
  simp [hcs]

theorem resolvePathAux_idem (full : List Char) :
    resolvePathAux (resolvePathAux full) = resolvePathAux full := by
  have hnos := resolvePathAux_out_no_slash full
  have hnod := resolvePathAux_out_nodot full
  by_cases hc : trailingDotSeg (pathSegsOf full) ∧ resolveSegs [] (pathSegsOf full) ≠ []
  · have h1 : resolvePathAux full =
        '/' :: joinSlash (resolveSegs [] (pathSegsOf full)) ++ ['/'] := by
      unfold resolvePathAux; rw [if_pos hc]
    have hne : resolveSegs [] (pathSegsOf full) ≠ [] := hc.2
    have hjoin : joinSlash (resolveSegs [] (pathSegsOf full)) ++ ['/'] =
        joinSlash (resolveSegs [] (pathSegsOf full) ++ [[]]) := by
      rw [joinSlash_append_single _ [] hne]
    have hsegs2 : pathSegsOf ('/' :: (joinSlash (resolveSegs [] (pathSegsOf full)) ++ ['/'])) =
        resolveSegs [] (pathSegsOf full) ++ [[]] := by
      rw [pathSegsOf_slash, hjoin,
          splitSlash_joinSlash (resolveSegs [] (pathSegsOf full) ++ [[]]) (by simp)]
      intro s hs
      rcases List.mem_append.mp hs with h | h
      · exact hnos s h
      · simp at h; subst h; simp
    have hout2 : resolveSegs [] (pathSegsOf
          ('/' :: (joinSlash (resolveSegs [] (pathSegsOf full)) ++ ['/']))) =
        resolveSegs [] (pathSegsOf full) ++ [[]] := by
      rw [hsegs2, resolveSegs_no_dot]
      · simp
      · intro s hs
        rcases List.mem_append.mp hs with h | h
        · exact hnod s h
        · simp at h; subst h; exact ⟨by simp, by simp⟩
    have htrail : ¬ trailingDotSeg (pathSegsOf
        ('/' :: (joinSlash (resolveSegs [] (pathSegsOf full)) ++ ['/']))) := by
      rw [hsegs2]
      unfold trailingDotSeg
      rw [List.getLast?_concat]
      simp
    rw [h1]
    show resolvePathAux ('/' :: (joinSlash (resolveSegs [] (pathSegsOf full)) ++ ['/'])) =
      '/' :: (joinSlash (resolveSegs [] (pathSegsOf full)) ++ ['/'])
    unfold resolvePathAux
    rw [if_neg (fun hcc => htrail hcc.1), hout2, ← hjoin]
  · have h1 : resolvePathAux full = '/' :: joinSlash (resolveSegs [] (pathSegsOf full)) := by
      unfold resolvePathAux; rw [if_neg hc]
    rw [h1]
    by_cases hout : resolveSegs [] (pathSegsOf full) = []
    · rw [hout]
      show resolvePathAux ['/'] = ['/']
      decide
    · have hsegs2 : pathSegsOf ('/' :: joinSlash (resolveSegs [] (pathSegsOf full))) =
          resolveSegs [] (pathSegsOf full) := by
        rw [pathSegsOf_slash, splitSlash_joinSlash _ hout hnos]
      have hout2 : resolveSegs [] (pathSegsOf
            ('/' :: joinSlash (resolveSegs [] (pathSegsOf full)))) =
          resolveSegs [] (pathSegsOf full) := by
        rw [hsegs2, resolveSegs_no_dot [] _ hnod]
        simp
      have htrail : ¬ trailingDotSeg (pathSegsOf
          ('/' :: joinSlash (resolveSegs [] (pathSegsOf full)))) := by
        rw [hsegs2]
        unfold trailingDotSeg
        rintro (h | h)
        · exact (hnod _ (List.mem_of_mem_getLast? h)).1 rfl
        · exact (hnod _ (List.mem_of_mem_getLast? h)).2 rfl
      unfold resolvePathAux
      rw [if_neg (fun hcc => htrail hcc.1), hout2]

theorem mergePaths_nil_right (b : List Char) : mergePaths b [] = b := by
  simp [mergePaths]

theorem mergePaths_rooted (b cs : List Char) : mergePaths b ('/' :: cs) = '/' :: cs := by
  unfold mergePaths
  rw [if_neg (by simp), if_pos (by simp)]

theorem resolvePath_idem_left (b r : List Char) :
    resolvePath (resolvePath b r) [] = resolvePath b r := by
  by_cases h : mergePaths b r = []
  · have h0 : resolvePath b r = [] := by unfold resolvePath; rw [if_pos h]
    rw [h0]
    rfl
  · have hq : resolvePath b r = resolvePathAux (mergePaths b r) := by
      unfold resolvePath; rw [if_neg h]
    rw [hq]
    unfold resolvePath
    rw [mergePaths_nil_right, if_neg (resolvePathAux_ne_nil _), resolvePathAux_idem]

theorem resolvePath_idem_base (b r : List Char) :
    resolvePath b (resolvePath b r) = resolvePath b r := by
  by_cases h : mergePaths b r = []
  · have h0 : resolvePath b r = [] := by unfold resolvePath; rw [if_pos h]
    have hb : b = [] := by
      unfold mergePaths at h
      split_ifs at h with h1 h2
      · exact h
      · exact absurd h h1
      · exact absurd (List.append_eq_nil.mp h).2 h1
    rw [h0, hb]
    rfl
  · have hq : resolvePath b r = resolvePathAux (mergePaths b r) := by
      unfold resolvePath; rw [if_neg h]
    rw [hq]
    obtain ⟨cs, hcs⟩ := resolvePathAux_head (mergePaths b r)
    rw [hcs]
    unfold resolvePath
    rw [mergePaths_rooted, if_neg (by simp), ← hcs, resolvePathAux_idem]

theorem resolveReference_idem (base ref : URL) :
    resolveReference base (resolveReference base ref) = resolveReference base ref := by
  unfold resolveReference
  by_cases hs : ref.scheme = "" <;> by_cases hh : ref.host = "" <;>
    by_cases hbs : base.scheme = "" <;> by_cases hbh : base.host = "" <;>
      simp [hs, hh, hbs, hbh, resolvePath_idem_left, resolvePath_idem_base]

/-! ## Behaviour lemmas shared between claims -/

theorem ping_preserves_shape (c : Client) (env : HTTPEnv) (r : Bool) (c₁ : Client)
    (hp : ping c env = some (r, c₁)) :
    c₁.useFastHTTP = c.useFastHTTP ∧ c₁.transport = c.transport ∧
    c₁.fastHTTPClient = c.fastHTTPClient := by
  unfold ping at hp
  rcases hct : c.transport with _ | t <;> rw [hct] at hp
  · cases hp
  · by_cases hf : c.useFastHTTP
    · rw [if_pos hf] at hp
      rcases he : env.fastResult with e | resp <;> rw [he] at hp <;> simp only [] at hp
      · cases hp
        exact ⟨rfl, rfl, rfl⟩
      · by_cases h200 : resp.statusCode = 200
        · rw [if_neg (not_not_intro h200)] at hp
          cases hp
          exact ⟨rfl, hct, rfl⟩
        · rw [if_pos h200] at hp
          cases hp
          exact ⟨rfl, rfl, rfl⟩
    · rw [if_neg hf] at hp
      rcases hn : env.stdNewRequestErr with _ | e <;> rw [hn] at hp <;> simp only [] at hp
      · rcases he : env.stdResult with e | resp <;> rw [he] at hp <;> simp only [] at hp
        · cases hp
          exact ⟨rfl, rfl, rfl⟩
        · by_cases h200 : resp.status = "200 OK"
          · rw [if_neg (not_not_intro h200)] at hp
            cases hp
            exact ⟨rfl, hct, rfl⟩
          · rw [if_pos h200] at hp
            cases hp
            exact ⟨rfl, rfl, rfl⟩
      · cases hp
        exact ⟨rfl, rfl, rfl⟩

theorem ping_true_eq (c : Client) (env : HTTPEnv) (c₁ : Client)
    (hp : ping c env = some (true, c₁)) : c₁ = c := by
  unfold ping at hp
  rcases hct : c.transport with _ | t <;> rw [hct] at hp
  · cases hp
  · by_cases hf : c.useFastHTTP
    · rw [if_pos hf] at hp
      rcases he : env.fastResult with e | resp <;> rw [he] at hp <;> simp only [] at hp
      · simp at hp
      · by_cases h200 : resp.statusCode = 200
        · rw [if_neg (not_not_intro h200)] at hp
          cases hp
          rfl
        · rw [if_pos h200] at hp
          simp at hp
    · rw [if_neg hf] at hp
      rcases hn : env.stdNewRequestErr with _ | e <;> rw [hn] at hp <;> simp only [] at hp
      · rcases he : env.stdResult with e | resp <;> rw [he] at hp <;> simp only [] at hp
        · simp at hp
        · by_cases h200 : resp.status = "200 OK"
          · rw [if_neg (not_not_intro h200)] at hp
            cases hp
            rfl
          · rw [if_pos h200] at hp
            simp at hp
      · simp at hp

theorem ping_false_err (c : Client) (env : HTTPEnv) (c₁ : Client)
    (hp : ping c env = some (false, c₁)) : ∃ e, c₁.clientError = some e := by
  unfold ping at hp
  rcases hct : c.transport with _ | t <;> rw [hct] at hp
  · cases hp
  · by_cases hf : c.useFastHTTP
    · rw [if_pos hf] at hp
      rcases he : env.fastResult with e | resp <;> rw [he] at hp <;> simp only [] at hp
      · cases hp
        exact ⟨e, rfl⟩
      · by_cases h200 : resp.statusCode = 200
        · rw [if_neg (not_not_intro h200)] at hp
          simp at hp
        · rw [if_pos h200] at hp
          cases hp
          exact ⟨pingFailedError, rfl⟩
    · rw [if_neg hf] at hp
      rcases hn : env.stdNewRequestErr with _ | e <;> rw [hn] at hp <;> simp only [] at hp
      · rcases he : env.stdResult with e | resp <;> rw [he] at hp <;> simp only [] at hp
        · cases hp
          exact ⟨e, rfl⟩
        · by_cases h200 : resp.status = "200 OK"
          · rw [if_neg (not_not_intro h200)] at hp
            simp at hp
          · rw [if_pos h200] at hp
            cases hp
            exact ⟨pingFailedError, rfl⟩
      · cases hp
        exact ⟨e, rfl⟩

theorem ping_fast_true_iff (c : Client) (t : Transport) (env : HTTPEnv)
    (ht : c.transport = some t) (hf : c.useFastHTTP = true) :
    (∃ c₁, ping c env = some (true, c₁)) ↔
      (∃ r, env.fastResult = .ok r ∧ r.statusCode = 200) := by
  unfold ping
  rw [ht, if_pos hf]
  rcases he : env.fastResult with e | resp <;> simp only []
  · simp
  · by_cases h200 : resp.statusCode = 200
    · simp only [if_neg (not_not_intro h200)]
      simp [h200]
    · simp only [if_pos h200]
      simp [h200]

theorem ping_std_true_iff (c : Client) (t : Transport) (env : HTTPEnv)
    (ht : c.transport = some t) (hf : c.useFastHTTP = false) :
    (∃ c₁, ping c env = some (true, c₁)) ↔
      (env.stdNewRequestErr = none ∧
       ∃ r, env.stdResult = .ok r ∧ r.status = "200 OK") := by
  unfold ping
  rw [ht, if_neg (by simp [hf])]
  rcases hn : env.stdNewRequestErr with _ | e <;> simp only []
  · rcases he : env.stdResult with e | resp <;> simp only []
    · simp
    · by_cases h200 : resp.status = "200 OK"
      · simp only [if_neg (not_not_intro h200)]
        simp [h200]
      · simp only [if_pos h200]
        simp [h200]
  · simp

theorem rpc_marshal_err_eq (c : Client) (name count : String) (e : GoError) (env : HTTPEnv) :
    rpc c name count (some (.error e)) env = some ("", { c with clientError := some e }) := rfl

theorem rpc_fast_err_eq (c : Client) (t : Transport) (name count : String) (env : HTTPEnv)
    (b : Option String) (e : GoError)
    (ht : c.transport = some t) (hf : c.useFastHTTP = true) (he : env.fastResult = .error e) :
    rpc c name count (okBody b) env = some ("", { c with clientError := some e }) := by
  cases b <;> simp [rpc, okBody, ht, hf, he]

theorem rpc_fast_ok_eq (c : Client) (t : Transport) (name count : String) (env : HTTPEnv)
    (b : Option String) (r : FastResp)
    (ht : c.transport = some t) (hf : c.useFastHTTP = true) (he : env.fastResult = .ok r) :
    rpc c name count (okBody b) env = some (r.body, c) := by
  cases b <;> simp [rpc, okBody, ht, hf, he]

theorem rpc_std_newreq_err_eq (c : Client) (t : Transport) (name count : String) (env : HTTPEnv)
    (b : Option String) (e : GoError)
    (ht : c.transport = some t) (hf : c.useFastHTTP = false)
    (he : env.stdNewRequestErr = some e) :
    rpc c name count (okBody b) env = some ("", { c with clientError := some e }) := by
  cases b <;> simp [rpc, okBody, ht, hf, he]

theorem rpc_std_do_err_eq (c : Client) (t : Transport) (name count : String) (env : HTTPEnv)
    (b : Option String) (e : GoError)
    (ht : c.transport = some t) (hf : c.useFastHTTP = false)
    (hn : env.stdNewRequestErr = none) (he : env.stdResult = .error e) :
    rpc c name count (okBody b) env = some ("", { c with clientError := some e }) := by
  cases b <;> simp [rpc, okBody, ht, hf, hn, he]

theorem rpc_std_read_err_eq (c : Client) (t : Transport) (name count : String) (env : HTTPEnv)
    (b : Option String) (r : StdResp) (e : GoError)
    (ht : c.transport = some t) (hf : c.useFastHTTP = false)
    (hn : env.stdNewRequestErr = none) (he : env.stdResult = .ok r)
    (hr : r.bodyRead = .error e) :
    rpc c name count (okBody b) env = some ("", { c with clientError := some e }) := by
  cases b <;> simp [rpc, okBody, ht, hf, hn, he, hr]

theorem rpc_std_close_err_eq (c : Client) (t : Transport) (name count : String) (env : HTTPEnv)
    (b : Option String) (r : StdResp) (body : String) (e : GoError)
    (ht : c.transport = some t) (hf : c.useFastHTTP = false)
    (hn : env.stdNewRequestErr = none) (he : env.stdResult = .ok r)
    (hr : r.bodyRead = .ok body) (hcl : r.closeErr = some e) :
    rpc c name count (okBody b) env = some ("", { c with clientError := some e }) := by
  cases b <;> simp [rpc, okBody, ht, hf, hn, he, hr, hcl]

theorem rpc_std_ok_eq (c : Client) (t : Transport) (name count : String) (env : HTTPEnv)
    (b : Option String) (r : StdResp) (body : String)
    (ht : c.transport = some t) (hf : c.useFastHTTP = false)
    (hn : env.stdNewRequestErr = none) (he : env.stdResult = .ok r)
    (hr : r.bodyRead = .ok body) (hcl : r.closeErr = none) :
    rpc c name count (okBody b) env = some (body, c) := by
  cases b <;> simp [rpc, okBody, ht, hf, hn, he, hr, hcl]

/-! ## Concrete fixtures used by counterexamples and witnesses -/

def demoURL : URL := { scheme := "http", host := "localhost:3000", path := [] }

def demoHeaderEntries : List (String × List String) :=
  [("Accept", ["application/json"]), ("Content-Type", ["application/json"]),
   ("Accept-Profile", ["public"]), ("Content-Profile", ["public"]),
   ("X-Client-Info", ["postgrest-go/v0.1.1"])]

def demoTransport : Transport := { header := ⟨demoHeaderEntries⟩, baseURL := demoURL }

def demoClient : Client := NewClient (.ok demoURL) "" []

def demoClientFast : Client := NewClientFast (.ok demoURL) "" []

def parseFailure : GoError := "first path segment in URL cannot contain colon"

def brokenClient : Client := NewClient (.error parseFailure) "" []

def unreachedEnv : HTTPEnv :=
  { fastResult := .error "unreached", stdNewRequestErr := none, stdResult := .error "unreached" }

def okEnv : HTTPEnv :=
  { fastResult := .ok { statusCode := 200, body := "fastbody" },
    stdNewRequestErr := none,
    stdResult := .ok { status := "200 OK", statusCode := 200,
                       bodyRead := .ok "hello", closeErr := none } }

/-- Environment of an HTTP/1.1 server that answers a 200 with the
non-standard reason phrase `Okay`: `net/http` then reports
`Status = "200 Okay"` and `StatusCode = 200`. -/
def reasonPhraseEnv : HTTPEnv :=
  { fastResult := .error "unreached",
    stdNewRequestErr := none,
    stdResult := .ok { status := "200 Okay", statusCode := 200,
                       bodyRead := .ok "", closeErr := none } }

def erroredClient : Client := { demoClient with clientError := some "stale" }

/-! ## Claims -/

/-- Claim C1, counterexample. A client built from a URL parse failure does
carry a non-nil `ClientError` and a nil transport, but calling `Ping` on it
dereferences the nil `Transport` pointer at `c.Transport.baseURL` — modelled
by `ping` returning `none` (a panic) — so `Ping` crashes rather than
returning `false`, contradicting the claim. -/
theorem C1_ping_broken_counterexample :
    brokenClient.clientError = some parseFailure ∧
    brokenClient.transport = none ∧
    ping brokenClient unreachedEnv = none ∧
    ¬ ∃ c', ping brokenClient unreachedEnv = some (false, c') := by
  refine ⟨rfl, rfl, rfl, ?_⟩
  rintro ⟨c', h⟩
  rw [show ping brokenClient unreachedEnv = none from rfl] at h
  exact Option.noConfusion h

/-- Claim C1, amended. When the supplied URL fails to parse, `NewClient` and
`NewClientFast` return a client whose `ClientError` is the parse error and
whose transport is nil; calling `Ping` on such a client dereferences the nil
transport and panics (modelled as `none`) instead of returning `false`. -/
theorem C1_parse_failure_client (e : GoError) (schema : String)
    (headers : List (String × String)) (env : HTTPEnv) :
    (NewClient (.error e) schema headers).clientError = some e ∧
    (NewClient (.error e) schema headers).transport = none ∧
    ping (NewClient (.error e) schema headers) env = none ∧
    (NewClientFast (.error e) schema headers).clientError = some e ∧
    (NewClientFast (.error e) schema headers).transport = none ∧
    ping (NewClientFast (.error e) schema headers) env = none :=
  ⟨rfl, rfl, rfl, rfl, rfl, rfl⟩

/-- Claim C2, counterexample. A successful default construction yields a
HeaderSet with exactly the five baseline header names — `Accept`,
`Content-Type`, `Accept-Profile`, `Content-Profile`, `X-Client-Info` — so it
has five entries, not the six the claim asserts. -/
theorem C2_six_headers_counterexample :
    (demoClient.transport.map (fun t => t.header.entries.map Prod.fst)) =
      some ["Accept", "Content-Type", "Accept-Profile", "Content-Profile", "X-Client-Info"] ∧
    (demoClient.transport.map (fun t => t.header.entries.length)) = some 5 ∧
    ¬ (demoClient.transport.map (fun t => t.header.entries.length)) = some 6 ∧
    (demoClientFast.transport.map (fun t => t.header.entries.length)) = some 5 := by
  refine ⟨rfl, rfl, ?_, rfl⟩
  intro h
  rw [show demoClient.transport.map (fun t => t.header.entries.length) = some 5 from rfl] at h
  simp at h

def baselineNames : List String :=
  ["Accept", "Content-Type", "Accept-Profile", "Content-Profile", "X-Client-Info"]

/-- Baseline header set built by both constructors before the optional extra
headers are applied. -/
def baselineHeaderSet (schema : String) : HeaderSet :=
  ⟨[("Accept", ["application/json"]), ("Content-Type", ["application/json"]),
    ("Accept-Profile", [if schema = "" then "public" else schema]),
    ("Content-Profile", [if schema = "" then "public" else schema]),
    ("X-Client-Info", ["postgrest-go/v0.1.1"])]⟩

theorem newClient_transport_eq (url : URL) (schema : String)
    (extras : List (String × String)) :
    (NewClient (.ok url) schema extras).transport =
      some { header := extras.foldl (fun acc kv => acc.set kv.1 kv.2) (baselineHeaderSet schema),
             baseURL := url } := rfl

theorem newClientFast_transport_eq (url : URL) (schema : String)
    (extras : List (String × String)) :
    (NewClientFast (.ok url) schema extras).transport =
      some { header := extras.foldl (fun acc kv => acc.set kv.1 kv.2) (baselineHeaderSet schema),
             baseURL := url } := rfl

/-- Claim C2, amended. Every successful construction via `NewClient` or
`NewClientFast` yields the same HeaderSet, which contains FIVE baseline
headers: `Accept: application/json`, `Content-Type: application/json`,
`Accept-Profile` and `Content-Profile` carrying the schema (defaulted to
`public`), and `X-Client-Info: postgrest-go/<version>`; with no extra headers
these five are its only entries. -/
theorem C2_five_baseline_headers (url : URL) (schema : String)
    (extras : List (String × String))
    (hx : ∀ kv ∈ extras, ¬ (canonicalKey kv.1 ∈ baselineNames)) :
    ∃ t : Transport,
      (NewClient (.ok url) schema extras).transport = some t ∧
      (NewClientFast (.ok url) schema extras).transport = some t ∧
      t.header.values "Accept" = ["application/json"] ∧
      t.header.values "Content-Type" = ["application/json"] ∧
      t.header.values "Accept-Profile" = [if schema = "" then "public" else schema] ∧
      t.header.values "Content-Profile" = [if schema = "" then "public" else schema] ∧
      t.header.values "X-Client-Info" = ["postgrest-go/" ++ version] ∧
      (extras = [] → t.header.entries.map Prod.fst = baselineNames) := by
  have hcanon : ∀ u ∈ baselineNames, canonicalKey u = u := by decide
  have hkey : ∀ k : String, k ∈ baselineNames →
      ∀ kv ∈ extras, ¬ (canonicalKey k = canonicalKey kv.1) := by
    intro k hk kv hm he
    apply hx kv hm
    rw [← he, hcanon k hk]
    exact hk
  refine ⟨_, newClient_transport_eq url schema extras,
    newClientFast_transport_eq url schema extras, ?_, ?_, ?_, ?_, ?_, ?_⟩
  · rw [show ∀ h : HeaderSet, (Transport.mk h url).header = h from fun _ => rfl]
    rw [values_foldSet _ _ _ (hkey "Accept" (by decide))]
    rfl
  · rw [show ∀ h : HeaderSet, (Transport.mk h url).header = h from fun _ => rfl]
    rw [values_foldSet _ _ _ (hkey "Content-Type" (by decide))]
    rfl
  · rw [show ∀ h : HeaderSet, (Transport.mk h url).header = h from fun _ => rfl]
    rw [values_foldSet _ _ _ (hkey "Accept-Profile" (by decide))]
    rfl
  · rw [show ∀ h : HeaderSet, (Transport.mk h url).header = h from fun _ => rfl]
    rw [values_foldSet _ _ _ (hkey "Content-Profile" (by decide))]
    rfl
  · rw [show ∀ h : HeaderSet, (Transport.mk h url).header = h from fun _ => rfl]
    rw [values_foldSet _ _ _ (hkey "X-Client-Info" (by decide))]
    rfl
  · intro hnil
    subst hnil
    rfl

/-- Claim C2 witness: a concrete default construction satisfies the amended
statement. -/
theorem C2_five_baseline_headers_witness :
    ∃ t : Transport,
      (NewClient (.ok demoURL) "" []).transport = some t ∧
      (NewClientFast (.ok demoURL) "" []).transport = some t ∧
      t.header.values "Accept" = ["application/json"] ∧
      t.header.values "Content-Type" = ["application/json"] ∧
      t.header.values "Accept-Profile" = [if "" = "" then "public" else ""] ∧
      t.header.values "Content-Profile" = [if "" = "" then "public" else ""] ∧
      t.header.values "X-Client-Info" = ["postgrest-go/" ++ version] ∧
      ([] = ([] : List (String × String)) → t.header.entries.map Prod.fst = baselineNames) :=
  C2_five_baseline_headers demoURL "" [] (by intro kv hm; cases hm)

/-- Claim C3, counterexample. A standard-engine client is validly constructed,
yet the request `Ping` hands to its engine carries no deadline at all — not
the claimed 5-second one. Only the fasthttp branch calls `DoDeadline`; the
net/http branch uses a plain `session.Do` with no timeout configured. -/
theorem C3_ping_deadline_counterexample :
    demoClient.useFastHTTP = false ∧
    demoClient.transport = some demoTransport ∧
    (pingSentRequest demoClient).map SentRequest.deadlineSeconds = some none ∧
    ¬ (pingSentRequest demoClient).map SentRequest.deadlineSeconds = some (some 5) := by
  refine ⟨rfl, rfl, by decide, ?_⟩
  intro h
  rw [show (pingSentRequest demoClient).map SentRequest.deadlineSeconds = some none by decide] at h
  simp at h

/-- Claim C3, amended. For every validly constructed client, `Ping` issues a
GET against the resolved base URL through the active engine, with the default
headers applied; the 5-second deadline exists only on the fasthttp engine —
the standard engine issues the request with no explicit deadline. -/
theorem C3_ping_request_shape (c : Client) (t : Transport) (h : c.transport = some t) :
    pingSentRequest c = some
      { viaFastEngine := c.useFastHTTP,
        req := { method := "GET", url := pingFullURL t.baseURL,
                 headers := (HeaderSet.mk []).addEntries t.header.entries, body := "" },
        deadlineSeconds := if c.useFastHTTP then some 5 else none } := by
  unfold pingSentRequest
  rw [h]
  by_cases hf : c.useFastHTTP
  · simp [hf]
  · simp [hf, pingFullURL, resolveReference_idem]

/-- Claim C3 witness: the amended statement instantiated at a concrete
standard-engine client. -/
theorem C3_ping_request_shape_witness :
    pingSentRequest demoClient = some
      { viaFastEngine := demoClient.useFastHTTP,
        req := { method := "GET", url := pingFullURL demoTransport.baseURL,
                 headers := (HeaderSet.mk []).addEntries demoTransport.header.entries,
                 body := "" },
        deadlineSeconds := if demoClient.useFastHTTP then some 5 else none } :=
  C3_ping_request_shape demoClient demoTransport rfl

/-- Claim C4. If `count` is exactly `exact`, `planned` or `estimated`, the
request built by either branch of `Rpc` carries `Prefer: count=<count>`; for
any other value (including non-empty ones) no `Prefer` header is added and no
error is raised — `rpc`'s outcome does not depend on `count` at all. The
hypothesis states that the client's default HeaderSet carries no `Prefer`
entry of its own (true of every construction that does not explicitly inject
one, since defaults are copied onto the request in both branches). -/
theorem C4_rpc_prefer_count (t : Transport) (name count : String) (b : Option String)
    (hp : ∀ e ∈ t.header.entries, ¬ (canonicalKey "Prefer" = canonicalKey e.1)) :
    ((buildRpcRequestFast t name count b).headers.values "Prefer" =
      if count = "exact" ∨ count = "planned" ∨ count = "estimated"
      then ["count=" ++ count] else []) ∧
    ((roundTripApply t (buildRpcRequestStd t name count b)).headers.values "Prefer" =
      if count = "exact" ∨ count = "planned" ∨ count = "estimated"
      then ["count=" ++ count] else []) ∧
    (∀ (c : Client) (env : HTTPEnv) (rb : Option (Except GoError String)) (count₂ : String),
      rpc c name count rb env = rpc c name count₂ rb env) := by
  have hcond : (¬ count = "" ∧ (count = "exact" ∨ count = "planned" ∨ count = "estimated")) ↔
      (count = "exact" ∨ count = "planned" ∨ count = "estimated") := by
    constructor
    · exact And.right
    · intro h
      refine ⟨?_, h⟩
      rcases h with rfl | rfl | rfl <;> decide
  have hcollect : collectValues (canonicalKey "Prefer") t.header.entries = [] :=
    collectValues_eq_nil _ _ hp
  refine ⟨?_, ?_, fun c env rb count₂ => rfl⟩
  · simp only [buildRpcRequestFast]
    by_cases hcnt : count = "exact" ∨ count = "planned" ∨ count = "estimated"
    · rw [if_pos (hcond.mpr hcnt), if_pos hcnt, HeaderSet.values_add,
          values_addEntries, hcollect, if_pos rfl]
      rfl
    · rw [if_neg (fun hc => hcnt (hcond.mp hc)), if_neg hcnt, values_addEntries, hcollect]
      rfl
  · simp only [buildRpcRequestStd, roundTripApply]
    by_cases hcnt : count = "exact" ∨ count = "planned" ∨ count = "estimated"
    · rw [if_pos (hcond.mpr hcnt), if_pos hcnt, values_addEntries, hcollect,
          HeaderSet.values_add, if_pos rfl]
      simp [HeaderSet.values]
      rfl
    · rw [if_neg (fun hc => hcnt (hcond.mp hc)), if_neg hcnt, values_addEntries, hcollect]
      rfl

/-- Claim C4 witness: with the default headers, `count = "bogus"` leaves no
`Prefer` header on the built request. -/
theorem C4_rpc_prefer_count_witness :
    (buildRpcRequestFast demoTransport "fn" "bogus" none).headers.values "Prefer" = [] :=
  ((C4_rpc_prefer_count demoTransport "fn" "bogus" none (by decide)).1).trans (by decide)

/-- Claim C5, counterexample. The standard branch of `Ping` compares the raw
status-line text with `"200 OK"`, not the status code with 200: against a
server that answers 200 with reason phrase `Okay`, `Ping` returns `false` and
sets `ClientError`, although the server responded with HTTP status 200. -/
theorem C5_ping_status_string_counterexample :
    ("200 Okay").data.take 3 = ("200").data ∧
    (∃ r, reasonPhraseEnv.stdResult = .ok r ∧ r.statusCode = 200) ∧
    ping demoClient reasonPhraseEnv =
      some (false, { demoClient with clientError := some pingFailedError }) ∧
    ¬ ∃ c', ping demoClient reasonPhraseEnv = some (true, c') := by
  refine ⟨by decide, ⟨_, rfl, rfl⟩, rfl, ?_⟩
  rintro ⟨c', h⟩
  rw [show ping demoClient reasonPhraseEnv =
        some (false, { demoClient with clientError := some pingFailedError }) from rfl] at h
  simp at h

/-- Claim C5, amended. On a validly constructed client, `Ping` returns `true`
iff the active engine's call succeeds and — on the fasthttp engine — the
status code is 200, or — on the standard engine — the status string is
exactly `"200 OK"` (a 200 with any other reason phrase counts as failure);
whenever it returns `true` the client is untouched, and whenever it returns
`false` the `ClientError` slot holds a non-nil error. -/
theorem C5_ping_behavior (c : Client) (t : Transport) (env : HTTPEnv)
    (h : c.transport = some t) :
    (c.useFastHTTP = true →
      ((∃ c₁, ping c env = some (true, c₁)) ↔
        (∃ r, env.fastResult = .ok r ∧ r.statusCode = 200))) ∧
    (c.useFastHTTP = false →
      ((∃ c₁, ping c env = some (true, c₁)) ↔
        (env.stdNewRequestErr = none ∧
         ∃ r, env.stdResult = .ok r ∧ r.status = "200 OK"))) ∧
    (∀ c₁, ping c env = some (true, c₁) → c₁ = c) ∧
    (∀ c₁, ping c env = some (false, c₁) → ∃ e, c₁.clientError = some e) :=
  ⟨fun hf => ping_fast_true_iff c t env h hf,
   fun hf => ping_std_true_iff c t env h hf,
   fun c₁ hp => ping_true_eq c env c₁ hp,
   fun c₁ hp => ping_false_err c env c₁ hp⟩

/-- Claim C5 witness: a fasthttp client against a 200 answer pings true. -/
theorem C5_ping_behavior_witness :
    ∃ c₁, ping demoClientFast okEnv = some (true, c₁) :=
  ((C5_ping_behavior demoClientFast demoTransport okEnv rfl).1 rfl).mpr ⟨_, rfl, rfl⟩

/-- Claim C6. `Rpc` returns the raw response body on success; on every
failure — body marshal, request construction, transport call, body read, or
body close — it stores that error in `ClientError` and returns the empty
string; and a nil body (`byteBody = none`) leaves the request payload empty
in both branches. -/
theorem C6_rpc_error_contract (c : Client) (t : Transport) (name count : String)
    (env : HTTPEnv) (h : c.transport = some t) :
    (∀ e, rpc c name count (some (.error e)) env =
      some ("", { c with clientError := some e })) ∧
    (c.useFastHTTP = true → ∀ e, env.fastResult = .error e → ∀ b,
      rpc c name count (okBody b) env = some ("", { c with clientError := some e })) ∧
    (c.useFastHTTP = true → ∀ r, env.fastResult = .ok r → ∀ b,
      rpc c name count (okBody b) env = some (r.body, c)) ∧
    (c.useFastHTTP = false → ∀ e, env.stdNewRequestErr = some e → ∀ b,
      rpc c name count (okBody b) env = some ("", { c with clientError := some e })) ∧
    (c.useFastHTTP = false → env.stdNewRequestErr = none →
      ∀ e, env.stdResult = .error e → ∀ b,
      rpc c name count (okBody b) env = some ("", { c with clientError := some e })) ∧
    (c.useFastHTTP = false → env.stdNewRequestErr = none → ∀ r, env.stdResult = .ok r →
      ∀ e, r.bodyRead = .error e → ∀ b,
      rpc c name count (okBody b) env = some ("", { c with clientError := some e })) ∧
    (c.useFastHTTP = false → env.stdNewRequestErr = none → ∀ r, env.stdResult = .ok r →
      ∀ body, r.bodyRead = .ok body → ∀ e, r.closeErr = some e → ∀ b,
      rpc c name count (okBody b) env = some ("", { c with clientError := some e })) ∧
    (c.useFastHTTP = false → env.stdNewRequestErr = none → ∀ r, env.stdResult = .ok r →
      ∀ body, r.bodyRead = .ok body → r.closeErr = none → ∀ b,
      rpc c name count (okBody b) env = some (body, c)) ∧
    ((buildRpcRequestFast t name count none).body = "" ∧
     (buildRpcRequestStd t name count none).body = "") :=
  ⟨fun e => rpc_marshal_err_eq c name count e env,
   fun hf e he b => rpc_fast_err_eq c t name count env b e h hf he,
   fun hf r he b => rpc_fast_ok_eq c t name count env b r h hf he,
   fun hf e he b => rpc_std_newreq_err_eq c t name count env b e h hf he,
   fun hf hn e he b => rpc_std_do_err_eq c t name count env b e h hf hn he,
   fun hf hn r he e hr b => rpc_std_read_err_eq c t name count env b r e h hf hn he hr,
   fun hf hn r he body hr e hcl b =>
     rpc_std_close_err_eq c t name count env b r body e h hf hn he hr hcl,
   fun hf hn r he body hr hcl b =>
     rpc_std_ok_eq c t name count env b r body h hf hn he hr hcl,
   rfl, rfl⟩

/-- Claim C6 witness: a successful standard-engine `Rpc` call returns the raw
body and leaves the client untouched. -/
theorem C6_rpc_error_contract_witness :
    rpc demoClient "fn" "" (okBody (some "x")) okEnv = some ("hello", demoClient) :=
  (C6_rpc_error_contract demoClient demoTransport "fn" "" okEnv rfl).2.2.2.2.2.2.2.1
    rfl rfl _ rfl "hello" rfl rfl (some "x")

/-- Claim C7. The typed setters go through `http.Header.Set`, which replaces
the whole value list for the canonical key: `SetApiKey` leaves exactly one
`apikey` value (the last one written, even after repeated calls),
`SetAuthToken` exactly one `Authorization: Bearer <token>` value, and
`ChangeSchema` exactly one value for each profile header. -/
theorem C7_typed_setters_replace (c : Client) (t : Transport) (h : c.transport = some t)
    (x y token sch : String) :
    (∀ c₁, c.setApiKey x = some c₁ → headerValuesOf c₁ "apikey" = [x]) ∧
    (∀ c₁ c₂, c.setApiKey x = some c₁ → c₁.setApiKey y = some c₂ →
      headerValuesOf c₂ "apikey" = [y]) ∧
    (∀ c₁, c.setAuthToken token = some c₁ →
      headerValuesOf c₁ "Authorization" = ["Bearer " ++ token]) ∧
    (∀ c₁, c.changeSchema sch = some c₁ →
      headerValuesOf c₁ "Accept-Profile" = [sch] ∧
      headerValuesOf c₁ "Content-Profile" = [sch]) := by
  refine ⟨?_, ?_, ?_, ?_⟩
  · intro c₁ h1
    simp only [Client.setApiKey, h] at h1
    cases h1
    show ((t.header.set "apikey" x)).values "apikey" = [x]
    rw [HeaderSet.values_set, if_pos rfl]
  · intro c₁ c₂ h1 h2
    simp only [Client.setApiKey, h] at h1
    cases h1
    simp only [Client.setApiKey] at h2
    cases h2
    show (((t.header.set "apikey" x).set "apikey" y)).values "apikey" = [y]
    rw [HeaderSet.values_set, if_pos rfl]
  · intro c₁ h1
    simp only [Client.setAuthToken, h] at h1
    cases h1
    show ((t.header.set "Authorization" ("Bearer " ++ token))).values "Authorization" =
      ["Bearer " ++ token]
    rw [HeaderSet.values_set, if_pos rfl]
  · intro c₁ h1
    simp only [Client.changeSchema, h] at h1
    cases h1
    constructor
    · show (((t.header.set "Accept-Profile" sch).set "Content-Profile" sch)).values
        "Accept-Profile" = [sch]
      rw [HeaderSet.values_set, if_neg (by decide), HeaderSet.values_set, if_pos rfl]
    · show (((t.header.set "Accept-Profile" sch).set "Content-Profile" sch)).values
        "Content-Profile" = [sch]
      rw [HeaderSet.values_set, if_pos rfl]

def demoClientX : Client := (demoClient.setApiKey "X").getD demoClient

def demoClientXY : Client := (demoClientX.setApiKey "Y").getD demoClient

/-- Claim C7 witness: `SetApiKey "X"` then `SetApiKey "Y"` leaves exactly one
`apikey` value, `Y`. -/
theorem C7_typed_setters_replace_witness :
    headerValuesOf demoClientXY "apikey" = ["Y"] :=
  (C7_typed_setters_replace demoClient demoTransport rfl "X" "Y" "tok" "sch").2.1
    demoClientX demoClientXY rfl rfl

theorem rpc_preserves_shape (c : Client) (name count : String)
    (rb : Option (Except GoError String)) (env : HTTPEnv) (s : String) (c₁ : Client)
    (hp : rpc c name count rb env = some (s, c₁)) :
    c₁.useFastHTTP = c.useFastHTTP ∧ c₁.transport = c.transport := by
  have key : rpc c name count none env = some (s, c₁) →
      c₁.useFastHTTP = c.useFastHTTP ∧ c₁.transport = c.transport := by
    intro hp2
    unfold rpc at hp2
    simp only [] at hp2
    rcases hct : c.transport with _ | t <;> rw [hct] at hp2 <;> simp only [] at hp2
    · cases hp2
    · by_cases hf : c.useFastHTTP
      · rw [if_pos hf] at hp2
        rcases he : env.fastResult with e | resp <;> rw [he] at hp2 <;> simp only [] at hp2
        · cases hp2
          exact ⟨rfl, rfl⟩
        · cases hp2
          exact ⟨rfl, hct⟩
      · rw [if_neg hf] at hp2
        rcases hn : env.stdNewRequestErr with _ | e <;> rw [hn] at hp2 <;> simp only [] at hp2
        · rcases he : env.stdResult with e2 | resp <;> rw [he] at hp2 <;> simp only [] at hp2
          · cases hp2
            exact ⟨rfl, rfl⟩
          · rcases hbr : resp.bodyRead with e3 | body <;> rw [hbr] at hp2 <;>
              simp only [] at hp2
            · cases hp2
              exact ⟨rfl, rfl⟩
            · rcases hcl : resp.closeErr with _ | e4 <;> rw [hcl] at hp2 <;>
                simp only [] at hp2
              · cases hp2
                exact ⟨rfl, hct⟩
              · cases hp2
                exact ⟨rfl, rfl⟩
        · cases hp2
          exact ⟨rfl, rfl⟩
  rcases rb with _ | rb0
  · exact key hp
  · rcases rb0 with e0 | s0
    · unfold rpc at hp
      simp only [] at hp
      cases hp
      exact ⟨rfl, rfl⟩
    · exact key hp

/-- Claim C8. The engine selector is fixed at construction (`NewClient` picks
the standard engine, `NewClientFast` the pooled one) and no operation flips
it: `SetFastHTTPMaxConns` changes only the pooled client's connection cap
(leaving the sent requests of a standard-engine client bit-identical), the
typed setters and `Ping`/`Rpc` preserve the selector, and the requests `Ping`
and `Rpc` hand to an engine always travel through the engine the selector
names. -/
theorem C8_engine_fixed (parsed : URL) (schema : String) (extras : List (String × String))
    (c : Client) (n : Int) (name count k tok sch : String) (b : Option String)
    (rb : Option (Except GoError String)) (env : HTTPEnv) :
    (NewClient (.ok parsed) schema extras).useFastHTTP = false ∧
    (NewClientFast (.ok parsed) schema extras).useFastHTTP = true ∧
    (c.setFastHTTPMaxConns n).useFastHTTP = c.useFastHTTP ∧
    (c.setFastHTTPMaxConns n).transport = c.transport ∧
    pingSentRequest (c.setFastHTTPMaxConns n) = pingSentRequest c ∧
    rpcSentRequest (c.setFastHTTPMaxConns n) name count b = rpcSentRequest c name count b ∧
    (∀ c₁, c.setApiKey k = some c₁ → c₁.useFastHTTP = c.useFastHTTP) ∧
    (∀ c₁, c.setAuthToken tok = some c₁ → c₁.useFastHTTP = c.useFastHTTP) ∧
    (∀ c₁, c.changeSchema sch = some c₁ → c₁.useFastHTTP = c.useFastHTTP) ∧
    (∀ r c₁, ping c env = some (r, c₁) → c₁.useFastHTTP = c.useFastHTTP) ∧
    (∀ s c₁, rpc c name count rb env = some (s, c₁) → c₁.useFastHTTP = c.useFastHTTP) ∧
    (∀ r, pingSentRequest c = some r → r.viaFastEngine = c.useFastHTTP) ∧
    (∀ r, rpcSentRequest c name count b = some r → r.viaFastEngine = c.useFastHTTP) := by
  refine ⟨rfl, rfl, rfl, rfl, rfl, rfl, ?_, ?_, ?_, ?_, ?_, ?_, ?_⟩
  · intro c₁ h1
    rcases hct : c.transport with _ | t <;>
      simp only [Client.setApiKey, hct] at h1
    · cases h1
    · cases h1
      rfl
  · intro c₁ h1
    rcases hct : c.transport with _ | t <;>
      simp only [Client.setAuthToken, hct] at h1
    · cases h1
    · cases h1
      rfl
  · intro c₁ h1
    rcases hct : c.transport with _ | t <;>
      simp only [Client.changeSchema, hct] at h1
    · cases h1
    · cases h1
      rfl
  · intro r c₁ hp
    exact (ping_preserves_shape c env r c₁ hp).1
  · intro s c₁ hp
    exact (rpc_preserves_shape c name count rb env s c₁ hp).1
  · intro r hr
    unfold pingSentRequest at hr
    rcases hct : c.transport with _ | t <;> rw [hct] at hr <;> simp only [] at hr
    · cases hr
    · by_cases hf : c.useFastHTTP
      · rw [if_pos hf] at hr
        cases hr
        exact hf.symm
      · rw [if_neg hf] at hr
        cases hr
        cases hb : c.useFastHTTP
        · rfl
        · exact absurd hb hf
  · intro r hr
    unfold rpcSentRequest at hr
    rcases hct : c.transport with _ | t <;> rw [hct] at hr <;> simp only [] at hr
    · cases hr
    · by_cases hf : c.useFastHTTP
      · rw [if_pos hf] at hr
        cases hr
        exact hf.symm
      · rw [if_neg hf] at hr
        cases hr
        cases hb : c.useFastHTTP
        · rfl
        · exact absurd hb hf

/-- Claim C8 witness: the statement instantiated at a concrete
standard-engine client; in particular `SetFastHTTPMaxConns` does not change
what `Ping` sends. -/
theorem C8_engine_fixed_witness :
    pingSentRequest (demoClient.setFastHTTPMaxConns 100) = pingSentRequest demoClient :=
  (C8_engine_fixed demoURL "" [] demoClient 100 "fn" "" "k" "tok" "sch" none none
    unreachedEnv).2.2.2.2.1

/-- Claim C9. The success paths of `Ping` and `Rpc` never write the
`ClientError` slot: a stale error recorded earlier survives a later
successful call unchanged. -/
theorem C9_stale_error_persists (c : Client) (t : Transport) (e : GoError) (env : HTTPEnv)
    (name count : String) (b : Option String)
    (ht : c.transport = some t) (he : c.clientError = some e) :
    (∀ c₁, ping c env = some (true, c₁) → c₁.clientError = some e) ∧
    (c.useFastHTTP = true → ∀ r, env.fastResult = .ok r →
      ∀ s c₁, rpc c name count (okBody b) env = some (s, c₁) → c₁.clientError = some e) ∧
    (c.useFastHTTP = false → env.stdNewRequestErr = none → ∀ r, env.stdResult = .ok r →
      ∀ body, r.bodyRead = .ok body → r.closeErr = none →
      ∀ s c₁, rpc c name count (okBody b) env = some (s, c₁) →
        c₁.clientError = some e) := by
  refine ⟨?_, ?_, ?_⟩
  · intro c₁ hp
    rw [ping_true_eq c env c₁ hp]
    exact he
  · intro hf r henv s c₁ hp
    rw [rpc_fast_ok_eq c t name count env b r ht hf henv] at hp
    cases hp
    exact he
  · intro hf hn r henv body hbr hcl s c₁ hp
    rw [rpc_std_ok_eq c t name count env b r body ht hf hn henv hbr hcl] at hp
    cases hp
    exact he

/-- Claim C9 witness: a client carrying a stale error pings successfully and
the stale error is still there afterwards. -/
theorem C9_stale_error_persists_witness :
    ping erroredClient okEnv = some (true, erroredClient) ∧
    erroredClient.clientError = some "stale" :=
  ⟨rfl,
   (C9_stale_error_persists erroredClient demoTransport "stale" okEnv "fn" "" none
     rfl rfl).1 erroredClient rfl⟩

/-- Claim C10. For every transport state and every `(name, count, body)`
triple, the fasthttp branch of `Rpc` and the net/http branch (after
`transport.RoundTrip` has stamped it) build equivalent requests: both POST,
both to the very same resolved `{base}/rpc/{name}` URL (the `RoundTrip`
re-resolution is a no-op on the already-resolved URL), the same payload, and
for every header name the same multiset of values — the default HeaderSet
entries are added additively in both, plus the same optional
`Prefer: count=...` header, only in a different order. -/
theorem C10_rpc_branches_equivalent (t : Transport) (name count : String) (b : Option String) :
    (buildRpcRequestFast t name count b).method = "POST" ∧
    (roundTripApply t (buildRpcRequestStd t name count b)).method = "POST" ∧
    (buildRpcRequestFast t name count b).url = rpcFullURL t.baseURL name ∧
    (roundTripApply t (buildRpcRequestStd t name count b)).url =
      (buildRpcRequestFast t name count b).url ∧
    (roundTripApply t (buildRpcRequestStd t name count b)).body =
      (buildRpcRequestFast t name count b).body ∧
    ∀ key : String, ((buildRpcRequestFast t name count b).headers.values key).Perm
      ((roundTripApply t (buildRpcRequestStd t name count b)).headers.values key) := by
  refine ⟨rfl, rfl, rfl, ?_, rfl, ?_⟩
  · show resolveReference t.baseURL (rpcFullURL t.baseURL name) = rpcFullURL t.baseURL name
    unfold rpcFullURL
    exact resolveReference_idem _ _
  · intro key
    simp only [buildRpcRequestFast, buildRpcRequestStd, roundTripApply]
    by_cases hcnt : count ≠ "" ∧ (count = "exact" ∨ count = "planned" ∨ count = "estimated")
    · rw [if_pos hcnt, if_pos hcnt, HeaderSet.values_add, values_addEntries,
          values_addEntries, HeaderSet.values_add]
      simp only [HeaderSet.values, findEntry, List.nil_append]
      exact List.perm_append_comm
    · rw [if_neg hcnt, if_neg hcnt, values_addEntries]

end Postgrest
